import Mathlib

/-!
Shallow embedding of the `go-archive` repository (Debian-style archive
publish/verify engine) and proofs about its behaviour.

Conventions used throughout:

* Go strings are modelled as Lean `String` except where byte-level slicing
  matters (`poolPrefix`), where `List Char` stands for the byte sequence.
* Go `(value..., error)` multi-returns are modelled either as `Except String _`
  (when the error and value are mutually exclusive) or as explicit tuples with
  an `Option String` error component (when the Go code returns both a value and
  an error and the distinction matters to a claim).
* External collaborators (the `control` paragraph codec, Debian version
  comparison, hash algorithm implementations, the HTTP stack, the blob store
  primitives) are modelled as parameters or as small state machines, exactly as
  the spec declares them out of scope; the control flow of this repository's
  functions is translated line by line.
-/

namespace GoArchive

/-! ## Data model: FileHash and Release (release.go) -/

/-- `control.FileHash`: algorithm name, digest bytes, size, filename. -/
structure FileHash where
  algorithm : String
  digest : List Nat
  size : Nat
  filename : String
deriving DecidableEq, Repr

/-- `Release` (release.go): root trust document of a suite.  Free-text fields
are kept as `String`; the four per-algorithm hash lists are lists of
`FileHash` (the Go wrapper types `control.MD5FileHash` etc. are single-field
wrappers around `control.FileHash`). -/
structure Release where
  description : String := ""
  origin : String := ""
  label : String := ""
  version : String := ""
  suite : String := ""
  codename : String := ""
  components : List String := []
  architectures : List String := []
  date : String := ""
  validUntil : String := ""
  md5sum : List FileHash := []
  sha1 : List FileHash := []
  sha256 : List FileHash := []
  sha512 : List FileHash := []
  notAutomatic : String := ""
  butAutomaticUpgrades : String := ""
  acquireByHash : Bool := false
deriving DecidableEq, Repr

/-- `Release.Indices` (release.go): map from declared filename to its
`FileHashes`.  The Go code builds a map by walking `r.SHA256` and then
`r.SHA512`, appending each entry under its filename; looking up an absent key
in a Go map yields the empty slice.  We model the map extensionally as the
lookup function: the entries under `p` are exactly the SHA256 entries with
filename `p` (in order) followed by the SHA512 ones.  MD5Sum and SHA1 are not
consulted. -/
def Release.Indices (r : Release) (p : String) : List FileHash :=
  (r.sha256 ++ r.sha512).filter (fun h => h.filename = p)

/-! ## Version maps (part_000): SortPackages / LoadPackageMap / Matches

The Debian version type and its rich comparison (`version.Compare`) live in
the external `go-debian` library, so the embedding is parametric in a version
type `V` and a comparison function `cmp : V → V → Int` (negative / zero /
positive like Go's `version.Compare`). -/

/-- One `Package` index entry as used by the version maps: grouping key
(`Package`) and parsed `Version`; the remaining paragraph fields do not
participate in `SortPackages` / `LoadPackageMap` / `Matches`. -/
structure VPackage (V : Type) where
  package : String
  version : V
deriving DecidableEq, Repr

/-- Go's `sort.Slice(packages, less)` with `less i j := cmp v_i v_j > 0`
guarantees only that the result is a permutation of the input ordered so that
no later element is `less` than an earlier one (the sort is explicitly not
stable).  We model it by insertion sort on the relation
`r a b := ¬ (cmp b.version a.version > 0)`, which has exactly that
postcondition. -/
def sortLE {V : Type} (cmp : V → V → Int) (a b : VPackage V) : Prop :=
  ¬ (0 < cmp b.version a.version)

instance {V : Type} (cmp : V → V → Int) : DecidableRel (sortLE cmp) :=
  fun a b => by unfold sortLE; infer_instance

/-- `SortPackages` (part_000): sort a slice by descending version. -/
def SortPackages {V : Type} (cmp : V → V → Int) (packages : List (VPackage V)) :
    List (VPackage V) :=
  packages.insertionSort (sortLE cmp)

/-- `PackageMap`: Go `map[string][]Package`, modelled extensionally as the
lookup function (absent key ↦ empty slice, Go's zero value). -/
def PackageMap (V : Type) : Type := String → List (VPackage V)

/-- One loop iteration of `LoadPackageMap`:
`ret[p.Package] = SortPackages(append(ret[p.Package], p))`. -/
def loadPackageMapStep {V : Type} (cmp : V → V → Int) (m : PackageMap V)
    (p : VPackage V) : PackageMap V :=
  fun name =>
    if name = p.package then SortPackages cmp (m p.package ++ [p]) else m name

/-- `LoadPackageMap` (part_000), with the iterator already drained into the
input list `input` (the `io.EOF`-terminated `Next` loop; a non-EOF read error
aborts the whole load and is orthogonal to the per-insertion invariant). -/
def LoadPackageMap {V : Type} (cmp : V → V → Int)
    (input : List (VPackage V)) : PackageMap V :=
  input.foldl (loadPackageMapStep cmp) (fun _ => [])

/-- `dependency.Possibility` as consumed by `SourceMap.Matches`: a name, an
optional architecture qualifier, and an optional version constraint `C`
(abstract: the external `VersionRelation`). -/
structure Possibility (C : Type) where
  name : String
  arch : Option String
  verRel : Option C
deriving DecidableEq, Repr

/-- `SourceMap.Matches` (part_000).  `sat` models the external
`possi.Version.SatisfiedBy(candidate.Version)` call (including the behaviour
on a `nil` version relation).  The map `m` is the SourceMap lookup function;
`Source` entries participate only through their parsed version, so the
`VPackage` record doubles as a `Source` here. -/
def SourceMapMatches {V C : Type} (sat : Option C → V → Bool)
    (m : PackageMap V) (possi : Possibility C) : Except String Nat :=
  if possi.arch ≠ none then
    Except.error "Arch is specified, but we are source! bad possi."
  else
    let candidates := m possi.name
    if candidates.length = 0 then
      Except.error "I have no idea what that source is!"
    else
      match candidates.findIdx? (fun candidate => sat possi.verRel candidate.version) with
      | some i => Except.ok i
      | none => Except.error "No satisfactory dependency found"

/-! ## Verified reader: Suite.Packages / Suite.Sources (part_007)

The read-side `Suite` wraps an OpenPGP-verified `Release`.  The filesystem /
mirror behind `Archive.getFile` is a parameter `fs : String → Option (List
Nat)` from full archive path to raw file bytes (`none` models an open error).
The external paragraph decoder (`LoadPackages`/`LoadSources` plus the
`Next`-until-EOF drain loop, including decompression) is a parameter
`decode : List Nat → Except String (List P)`; the external digest
computation is a parameter `hashFn : String → List Nat → List Nat`. -/

/-- Read-side `Suite` (part_007): the verified Release.  The embedded
`archive` back-reference is supplied to `Packages`/`Sources` as the `fs`
parameter instead. -/
structure RSuite where
  release : Release
deriving DecidableEq, Repr

/-- `Suite.HasComponent`: membership in the Release's declared components. -/
def RSuite.HasComponent (s : RSuite) (component : String) : Bool :=
  s.release.components.contains component

/-- `Suite.HasArch`: membership in the Release's declared architectures.
`dependency.Arch` and its wildcard-aware `Is` comparison are external; an
architecture is modelled as its string and `Is` as equality. -/
def RSuite.HasArch (s : RSuite) (arch : String) : Bool :=
  s.release.architectures.contains arch

/-- `control.FileHashValidators.Validate()`: every declared hash is checked
against the digest of the streamed bytes and the streamed byte count. -/
def validatorsValidate (hashFn : String → List Nat → List Nat)
    (hashes : List FileHash) (content : List Nat) : Bool :=
  hashes.all (fun h =>
    decide (hashFn h.algorithm content = h.digest) && decide (content.length = h.size))

/-- `Suite.getHashedFileReader` (part_007): look up the declared hashes for
`suitePath` in the Release's `Indices()`; refuse when none are declared;
otherwise open `dists/<suite>/<suitePath>` with the validators teeing the
stream.  Returns the raw bytes together with the declared hash set (the
validator construction `hashes.Validators()` is external and modelled as
total; its failure path also returns a bare error). -/
def RSuite.getHashedFileReader (s : RSuite) (fs : String → Option (List Nat))
    (suitePath : String) : Except String (List Nat × List FileHash) :=
  let hashes := s.release.Indices suitePath
  if hashes.length = 0 then
    Except.error "Undeclared file in InRelease"
  else
    match fs ("dists/" ++ s.release.suite ++ "/" ++ suitePath) with
    | none => Except.error "open failed"
    | some content => Except.ok (content, hashes)

/-- Result of a Go `([]T, error)` return: the slice and the error value.  The
Go `nil` slice and the empty slice both map to `[]`. -/
def GoListResult (P : Type) : Type := List P × Option String

/-- `Suite.Packages` (part_007): component/arch membership checks, declared-
hash lookup, stream + decode, and the trailing `validators.Validate()` check
that invalidates the whole collection. -/
def RSuite.Packages {P : Type} (s : RSuite)
    (hashFn : String → List Nat → List Nat)
    (decode : List Nat → Except String (List P))
    (fs : String → Option (List Nat))
    (component : String) (arch : String) : GoListResult P :=
  if ¬ s.HasComponent component then
    ([], some ("No such component: " ++ component))
  else if ¬ s.HasArch arch then
    ([], some ("No such arch: " ++ arch))
  else
    let suitePath := component ++ "/binary-" ++ arch ++ "/Packages"
    match s.getHashedFileReader fs suitePath with
    | Except.error e => ([], some e)
    | Except.ok (content, hashes) =>
      match decode content with
      | Except.error e => ([], some e)
      | Except.ok pkgs =>
        if ¬ validatorsValidate hashFn hashes content then
          ([], some "Index hashes do not match!")
        else
          (pkgs, none)

/-- `Suite.Sources` (part_007): same shape as `Packages` over the
`<component>/source/Sources.gz` index. -/
def RSuite.Sources {P : Type} (s : RSuite)
    (hashFn : String → List Nat → List Nat)
    (decode : List Nat → Except String (List P))
    (fs : String → Option (List Nat))
    (component : String) : GoListResult P :=
  if ¬ s.HasComponent component then
    ([], some ("No such component: " ++ component))
  else
    let suitePath := component ++ "/source/Sources.gz"
    match s.getHashedFileReader fs suitePath with
    | Except.error e => ([], some e)
    | Except.ok (content, hashes) =>
      match decode content with
      | Except.error e => ([], some e)
      | Except.ok srcs =>
        if ¬ validatorsValidate hashFn hashes content then
          ([], some "Index hashes do not match!")
        else
          (srcs, none)

/-! ## Blob store and the publisher (archive.go, openpgp.go)

The content-addressed store (`pault.ag/go/blobstore`) is external; its
primitive operations `Create`/`Commit`/`Link` are modelled as a small state
machine over opaque object ids.  `Link` is the only operation that touches
the published path table. -/

/-- Blob store state: a fresh-id counter for `Create`, the committed object
ids, and the `path → object` link table. -/
structure BlobState where
  nextId : Nat
  committed : List Nat
  links : List (String × Nat)
deriving DecidableEq, Repr

/-- `store.Create()`: allocate a fresh writer handle. -/
def storeCreate (st : BlobState) : BlobState × Nat :=
  ({ st with nextId := st.nextId + 1 }, st.nextId)

/-- `store.Commit(writer)`: seal the written content as an object. -/
def storeCommit (st : BlobState) (writer : Nat) : BlobState × Nat :=
  ({ st with committed := st.committed ++ [writer] }, writer)

/-- `store.Link(obj, path)`: publish `path → obj`.  The sole mutation of the
published path tree. -/
def storeLink (st : BlobState) (obj : Nat) (p : String) : BlobState :=
  { st with links := st.links ++ [(p, obj)] }

/-- A `transput.Hasher` at the moment its digest is read: algorithm name,
accumulated digest and byte count. -/
structure Hasher where
  name : String
  digest : List Nat
  size : Nat
deriving DecidableEq, Repr

/-- `control.FileHashFromHasher`. -/
def FileHashFromHasher (p : String) (h : Hasher) : FileHash :=
  { algorithm := h.name, digest := h.digest, size := h.size, filename := p }

/-- `Release.AddHash` (release.go): dispatch a FileHash into the matching
per-algorithm list; unknown algorithm is an error. -/
def Release.AddHash (r : Release) (h : FileHash) : Except String Release :=
  if h.algorithm = "sha256" then Except.ok { r with sha256 := r.sha256 ++ [h] }
  else if h.algorithm = "sha1" then Except.ok { r with sha1 := r.sha1 ++ [h] }
  else if h.algorithm = "sha512" then Except.ok { r with sha512 := r.sha512 ++ [h] }
  else if h.algorithm = "md5" then Except.ok { r with md5sum := r.md5sum ++ [h] }
  else Except.error ("No known hash: " ++ h.algorithm)

/-- `Engross` calls `release.AddHash(fileHash)` and discards the returned
error: an unknown algorithm leaves the release unchanged. -/
def addHashIgnoringError (r : Release) (h : FileHash) : Release :=
  match r.AddHash h with
  | Except.ok r2 => r2
  | Except.error _ => r

/-- A publish-side `PackageWriter` as `Engross` consumes it: the blob-store
writer handle and the per-algorithm hashers fed by every `Add`. -/
structure PackageWriter where
  handle : Nat
  hashers : List Hasher
deriving DecidableEq, Repr

/-- A publish-side `Component`: per-architecture package writers (the Go map
is modelled as an association list in a fixed iteration order). -/
structure WComponent where
  packageWriters : List (String × PackageWriter)
deriving DecidableEq, Repr

/-- Publish-side `Suite` (archive.go): name, free-text release metadata, the
component map and the feature set. -/
structure WSuite where
  name : String
  description : String := ""
  origin : String := ""
  label : String := ""
  version : String := ""
  components : List (String × WComponent) := []
  featureHashes : List String := []
  featureDuration : String := ""
deriving DecidableEq, Repr

/-- Publish-side `Archive` (archive.go): the blob store lives in the explicit
`BlobState`; the OpenPGP signing entity is opaque (`none` = no key loaded). -/
structure WArchive where
  signingKey : Option Nat
deriving DecidableEq, Repr

/-- `Suite.newRelease` (archive.go): build the Release skeleton; `Date` is
the formatted current time and `Valid-Until` is `now + duration` when a
duration is configured.  `time.Now`, RFC1123Z formatting and
`time.ParseDuration` are external and passed as parameters. -/
def WSuite.newRelease (suite : WSuite) (now : Nat) (fmtTime : Nat → String)
    (parseDuration : String → Option Nat) : Except String Release :=
  if suite.featureDuration = "" then
    Except.ok
      { suite := suite.name, description := suite.description
        validUntil := "", origin := suite.origin, label := suite.label
        version := suite.version, date := fmtTime now
        architectures := [], components := []
        sha256 := [], sha1 := [], sha512 := [], md5sum := [] }
  else
    match parseDuration suite.featureDuration with
    | none => Except.error "invalid duration"
    | some d =>
      Except.ok
        { suite := suite.name, description := suite.description
          validUntil := fmtTime (now + d), origin := suite.origin
          label := suite.label, version := suite.version, date := fmtTime now
          architectures := [], components := []
          sha256 := [], sha1 := [], sha512 := [], md5sum := [] }

/-- `Archive.encode` (archive.go): create a writer, paragraph-encode the data
into it (the encoded bytes are opaque; the `tap` hash sink is external), and
commit it. -/
def archiveEncode (st : BlobState) : BlobState × Nat :=
  let created := storeCreate st
  storeCommit created.1 created.2

/-- `Archive.encodeSigned` (openpgp.go / archive.go): refuse without a
loaded signing key; otherwise create the signature writer, encode-and-commit
the document while hashing it with SHA-512, build and serialize the OpenPGP
binary signature (external crypto), and commit the signature.  Returns the
document object and the signature object. -/
def WArchive.encodeSigned (a : WArchive) (data : Release) (st : BlobState) :
    BlobState × Except String (Nat × Nat) :=
  let _ := data
  if a.signingKey = none then
    (st, Except.error "No signing key loaded")
  else
    let created := storeCreate st
    let encoded := archiveEncode created.1
    let committedSig := storeCommit encoded.1 created.2
    (committedSig.1, Except.ok (encoded.2, committedSig.2))

/-- `Archive.encodeClearsigned` (archive.go): refuse without a loaded signing
key; otherwise create a writer, wrap it in the clearsign envelope (external),
encode the document and commit. -/
def WArchive.encodeClearsigned (a : WArchive) (data : Release) (st : BlobState) :
    BlobState × Except String Nat :=
  let _ := data
  if a.signingKey = none then
    (st, Except.error "No signing key loaded")
  else
    let created := storeCreate st
    let committed := storeCommit created.1 created.2
    (committed.1, Except.ok committed.2)

/-- The inner writer loop of `Engross` for one component: commit each
architecture writer's blob, fold its hashers' FileHashes into the release
(`AddHash` errors are discarded by the source), collect the seen arches and
record `dists/<suite>/<component>/binary-<arch>/Packages → object`. -/
def engrossWriters (suiteName compName : String)
    (writers : List (String × PackageWriter))
    (acc : BlobState × Release × List (String × Nat) × List String) :
    BlobState × Release × List (String × Nat) × List String :=
  writers.foldl
    (fun acc wr =>
      let arch := wr.1
      let writer := wr.2
      let st := acc.1
      let release := acc.2.1
      let files := acc.2.2.1
      let arches := acc.2.2.2
      let arches2 := if arches.contains arch then arches else arches ++ [arch]
      let suitePath := compName ++ "/binary-" ++ arch ++ "/Packages"
      let committed := storeCommit st writer.handle
      let release2 := writer.hashers.foldl
        (fun r hasher => addHashIgnoringError r (FileHashFromHasher suitePath hasher))
        release
      let files2 := files ++ [("dists/" ++ suiteName ++ "/" ++ suitePath, committed.2)]
      (committed.1, release2, files2, arches2))
    acc

/-- `Archive.Engross` (archive.go): build the release skeleton, commit every
component/arch index blob while folding its hashes into the release, then
encode-and-commit `Release`, `Release.gpg` and `InRelease`, returning the
`path → object` map to be linked later.  No `Link` is performed. -/
def WArchive.Engross (a : WArchive) (suite : WSuite) (now : Nat)
    (fmtTime : Nat → String) (parseDuration : String → Option Nat)
    (st : BlobState) : BlobState × Except String (List (String × Nat)) :=
  match suite.newRelease now fmtTime parseDuration with
  | Except.error e => (st, Except.error e)
  | Except.ok release0 =>
    let folded := suite.components.foldl
      (fun acc comp =>
        let release := acc.2.1
        let withComp :=
          { release with components := release.components ++ [comp.1] }
        engrossWriters suite.name comp.1 comp.2.packageWriters
          (acc.1, withComp, acc.2.2.1, acc.2.2.2))
      (st, release0, [], [])
    let st1 := folded.1
    let release1 := folded.2.1
    let files1 := folded.2.2.1
    let arches := folded.2.2.2
    let release2 := { release1 with architectures := arches }
    match a.encodeSigned release2 st1 with
    | (st2, Except.error e) => (st2, Except.error e)
    | (st2, Except.ok objs) =>
      let files2 := files1
        ++ [("dists/" ++ suite.name ++ "/Release", objs.1)]
        ++ [("dists/" ++ suite.name ++ "/Release.gpg", objs.2)]
      match a.encodeClearsigned release2 st2 with
      | (st3, Except.error e) => (st3, Except.error e)
      | (st3, Except.ok obj2) =>
        (st3, Except.ok (files2 ++ [("dists/" ++ suite.name ++ "/InRelease", obj2)]))

/-- `Archive.Link` (archive.go): walk the `path → object` map and `Link` each
entry — the operation `Engross` never performs. -/
def WArchive.Link (st : BlobState) (blobs : List (String × Nat)) : BlobState :=
  blobs.foldl (fun s pr => storeLink s pr.2 pr.1) st

/-! ## Downloader retry loop (downloader.go)

`Downloader.open` classifies one fetch attempt: a connection failure
(`http.Get` error) is wrapped in `transientError`; a non-200 status is an
error, transient exactly when it is 5xx.  One attempt is modelled by the
server's response to it: `none` for a connection failure, `some code` for an
HTTP status code. -/

/-- Outcome of one `Downloader.open` call for an HTTP source. -/
inductive OpenOutcome
  | ok
  | transient
  | permanent
deriving DecidableEq, Repr

/-- The error classification of `Downloader.open` (downloader.go):
connection failures are `transientError`; HTTP 200 succeeds; any other
status fails, transiently exactly for 5xx. -/
def classifyOpen (response : Option Nat) : OpenOutcome :=
  match response with
  | none => OpenOutcome.transient
  | some code =>
    if code = 200 then OpenOutcome.ok
    else if 500 ≤ code ∧ code < 600 then OpenOutcome.transient
    else OpenOutcome.permanent

/-- Result of the retry loop: success, or a surfaced error tagged with
whether it was transient. -/
inductive RetryResult
  | success
  | failed (transient : Bool)
deriving DecidableEq, Repr

/-- The `for retry := 0; ; retry++` loop of
`Downloader.tempFileWithFilename` (downloader.go): call `open`, stop on
success, retry a transient error while `retry < MaxTransientRetries`, and
surface any other failure.  `responses i` is the server's answer to the
`i`-th attempt.  Returns the number of `open` attempts made together with the
loop's outcome. -/
def retryLoop (maxRetries : Nat) (responses : Nat → Option Nat)
    (retry : Nat) : Nat × RetryResult :=
  match classifyOpen (responses retry) with
  | OpenOutcome.ok => (1, RetryResult.success)
  | OpenOutcome.permanent => (1, RetryResult.failed false)
  | OpenOutcome.transient =>
    if h : retry < maxRetries then
      let rest := retryLoop maxRetries responses (retry + 1)
      (rest.1 + 1, rest.2)
    else
      (1, RetryResult.failed true)
termination_by maxRetries - retry

/-! ## Pool (pool.go) -/

/-- `Pool.Copy` (pool.go), translated with its error handling exactly as
written: every failure path executes `return nil, []control.FileHash{}, nil`
— a `nil` *error*.  `fs` models `os.Open` + the streamed read (`none` = open
fails); `featureHashes`/`hashFn` model `getHashers(p.suite)` and the digest
computation; the blob store is the explicit state.  The triple mirrors the Go
return `(*blobstore.Object, []control.FileHash, error)`. -/
def PoolCopy (fs : String → Option (List Nat)) (featureHashes : List String)
    (hashFn : String → List Nat → List Nat) (st : BlobState) (p : String) :
    BlobState × (Option Nat × List FileHash × Option String) :=
  match fs p with
  | none => (st, (none, [], none))
  | some content =>
    let created := storeCreate st
    let committed := storeCommit created.1 created.2
    let fileHashes := featureHashes.map
      (fun algo =>
        { algorithm := algo, digest := hashFn algo content
          size := content.length, filename := p : FileHash })
    (committed.1, (some committed.2, fileHashes, none))

/-! ### Go `path.Clean` / `path.Join`

`poolPrefix` and the pool path construction go through Go's `path.Join`,
which slash-joins its non-empty elements and then `Clean`s the result.
`Clean` is specified by its four documented rewrite rules (drop empty and `.`
components, resolve `..` against a preceding component, keep leading `..` on
relative paths, never escape the root on rooted paths).  Go strings are byte
strings; they are modelled here as `List Char`. -/

/-- Split a path on `/`; the separators themselves are dropped, empty
components are kept (Clean removes them). -/
def splitSlashAux (acc : List Char) : List Char → List (List Char)
  | [] => [acc]
  | c :: rest =>
    if c = '/' then acc :: splitSlashAux [] rest
    else splitSlashAux (acc ++ [c]) rest

/-- Split a path on every `/`. -/
def splitSlash (l : List Char) : List (List Char) :=
  splitSlashAux [] l

/-- The component stack of `path.Clean`, processed left to right; the head of
`stack` is the most recent kept component. -/
def cleanStack (rooted : Bool) : List (List Char) → List (List Char) → List (List Char)
  | stack, [] => stack
  | stack, comp :: rest =>
    if comp = [] ∨ comp = ['.'] then cleanStack rooted stack rest
    else if comp = ['.', '.'] then
      match stack with
      | top :: stackRest =>
        if top = ['.', '.'] then cleanStack rooted (comp :: stack) rest
        else cleanStack rooted stackRest rest
      | [] =>
        if rooted then cleanStack rooted [] rest
        else cleanStack rooted [comp] rest
    else cleanStack rooted (comp :: stack) rest

/-- Interleave path components with `/`. -/
def joinSlash : List (List Char) → List Char
  | [] => []
  | [c] => c
  | c :: rest => c ++ '/' :: joinSlash rest

/-- Go `path.Clean`. -/
def pathClean (p : List Char) : List Char :=
  if p = [] then ['.']
  else
    let rooted := p.head? = some '/'
    let comps := (cleanStack rooted [] (splitSlash p)).reverse
    let body := joinSlash comps
    if rooted then '/' :: body
    else if body = [] then ['.']
    else body

/-- Go `path.Join`: drop leading empty elements, slash-join the rest, then
`Clean`. -/
def pathJoinList (elems : List (List Char)) : List Char :=
  match elems with
  | [] => []
  | a :: rest =>
    if a = [] then pathJoinList rest
    else pathClean (joinSlash (a :: rest))

/-- `poolPrefix` (pool.go): `path.Join(source[0:1], source)`.  The string
slice `source[0:1]` is in bounds exactly when `1 ≤ len(source)`; on the empty
string it panics with a slice-bounds-out-of-range runtime error, modelled as
`none`. -/
def poolPrefixFn (source : List Char) : Option (List Char) :=
  if 1 ≤ source.length then some (pathJoinList [source.take 1, source])
  else none

/-- The pool path built by `Pool.IncludeDeb` (pool.go):
`path.Join("pool", poolPrefix(source), "<pkg>_<ver>_<arch>.deb")`; `none`
propagates the `poolPrefix` panic on an empty source name. -/
def includeDebPath (sourceName pkg ver arch : List Char) : Option (List Char) :=
  (poolPrefixFn sourceName).map
    (fun pp =>
      pathJoinList ["pool".toList, pp,
        pkg ++ '_' :: ver ++ '_' :: arch ++ ".deb".toList])

/-! ## Release cache (downloader.go): CachedRelease -/

/-- The memoized triple `cachedRelease{r, rd, err}`: the Release and
ReleaseDownloader pointers are opaque ids; the error is stored alongside
them. -/
structure CachedTriple where
  release : Option Nat
  rd : Option Nat
  err : Option String
deriving DecidableEq, Repr

/-- One sequential execution of `CachedRelease(suite)` (downloader.go):
look up the cache under the mutex; on a hit return the stored triple; on a
miss perform `DefaultDownloader.Release(suite)` (the parameter `fetch`),
re-check the cache under the mutex, store and return.  The last component
counts the `Release` fetches performed by this call. -/
def cachedReleaseCall (fetch : String → CachedTriple)
    (cache : List (String × CachedTriple)) (suite : String) :
    CachedTriple × List (String × CachedTriple) × Nat :=
  match cache.lookup suite with
  | some cached => (cached, cache, 0)
  | none =>
    let t := fetch suite
    match cache.lookup suite with
    | some cached2 => (cached2, cache, 1)
    | none => (t, cache ++ [(suite, t)], 1)

end GoArchive

namespace GoArchive

/-! ## Helper lemmas -/

/-- Unfolding of the retry loop when every attempt fails transiently:
starting at `retry`, the loop makes `maxRetries - retry + 1` attempts and
surfaces the transient error. -/
theorem retryLoop_all_transient (responses : Nat → Option Nat)
    (hall : ∀ i, classifyOpen (responses i) = OpenOutcome.transient) :
    ∀ (d maxRetries retry : Nat), maxRetries - retry = d →
      retryLoop maxRetries responses retry = (d + 1, RetryResult.failed true) := by
  intro d
  induction d with
  | zero =>
    intro maxRetries retry hd
    rw [retryLoop]
    rw [hall retry]
    have hnot : ¬ retry < maxRetries := by omega
    simp [hnot]
  | succ d ih =>
    intro maxRetries retry hd
    rw [retryLoop]
    rw [hall retry]
    have hlt : retry < maxRetries := by omega
    have hrec := ih maxRetries (retry + 1) (by omega)
    simp [hlt, hrec]

/-- `findIdx?` returns `some i` exactly when `i` is in range, the `i`-th
element satisfies the predicate, and no earlier element does. -/
theorem findIdx?_some_char {α : Type} (p : α → Bool) :
    ∀ (l : List α) (i : Nat),
      l.findIdx? p = some i ↔
        ((∃ a, l[i]? = some a ∧ p a = true) ∧
          ∀ j, j < i → ∀ b, l[j]? = some b → p b = false) := by
  intro l
  induction l with
  | nil => intro i; simp
  | cons x xs ih =>
    intro i
    rw [List.findIdx?_cons]
    by_cases hx : p x = true
    · simp only [hx, if_true]
      constructor
      · intro h
        cases h
        exact ⟨⟨x, by simp, hx⟩, by omega⟩
      · intro ⟨⟨a, ha, hpa⟩, hbefore⟩
        cases i with
        | zero => rfl
        | succ i =>
          exfalso
          have := hbefore 0 (by omega) x (by simp)
          rw [hx] at this
          exact Bool.false_ne_true this.symm
    · simp only [hx, if_false, List.findIdx?_succ]
      constructor
      · intro h
        obtain ⟨i0, hi0, rfl⟩ := Option.map_eq_some'.mp h
        obtain ⟨⟨a, ha, hpa⟩, hbefore⟩ := (ih i0).mp hi0
        refine ⟨⟨a, by simpa using ha, hpa⟩, ?_⟩
        intro j hj b hb
        cases j with
        | zero =>
          simp at hb
          subst hb
          exact Bool.of_not_eq_true hx
        | succ j =>
          exact hbefore j (by omega) b (by simpa using hb)
      · intro ⟨⟨a, ha, hpa⟩, hbefore⟩
        cases i with
        | zero =>
          simp at ha
          subst ha
          exact absurd hpa hx
        | succ i =>
          have hi : xs.findIdx? p = some i := by
            refine (ih i).mpr ⟨⟨a, by simpa using ha, hpa⟩, ?_⟩
            intro j hj b hb
            exact hbefore (j + 1) (by omega) b (by simpa using hb)
          rw [hi]
          rfl

/-- The writer loop of `Engross` only creates and commits blobs: the link
table of the store is untouched. -/
theorem engrossWriters_links (suiteName compName : String) :
    ∀ (writers : List (String × PackageWriter))
      (acc : BlobState × Release × List (String × Nat) × List String),
      (engrossWriters suiteName compName writers acc).1.links = acc.1.links := by
  intro writers
  induction writers with
  | nil => intro acc; rfl
  | cons w rest ih =>
    intro acc
    rw [engrossWriters, List.foldl_cons, ← engrossWriters]
    rw [ih]
    rfl

/-- The component loop of `Engross` leaves the link table untouched. -/
theorem engrossComponents_links (suiteName : String) :
    ∀ (components : List (String × WComponent))
      (acc : BlobState × Release × List (String × Nat) × List String),
      (components.foldl
        (fun acc comp =>
          let release := acc.2.1
          let withComp :=
            { release with components := release.components ++ [comp.1] }
          engrossWriters suiteName comp.1 comp.2.packageWriters
            (acc.1, withComp, acc.2.2.1, acc.2.2.2))
        acc).1.links = acc.1.links := by
  intro components
  induction components with
  | nil => intro acc; rfl
  | cons comp rest ih =>
    intro acc
    rw [List.foldl_cons]
    rw [ih]
    exact engrossWriters_links _ _ _ _

/-- `encodeSigned` never links. -/
theorem encodeSigned_links (a : WArchive) (data : Release) (st : BlobState) :
    (a.encodeSigned data st).1.links = st.links := by
  rw [WArchive.encodeSigned]
  split <;> rfl

/-- `encodeClearsigned` never links. -/
theorem encodeClearsigned_links (a : WArchive) (data : Release) (st : BlobState) :
    (a.encodeClearsigned data st).1.links = st.links := by
  rw [WArchive.encodeClearsigned]
  split <;> rfl

/-- Splitting a slash-free byte string yields the single component appended
to the accumulator. -/
theorem splitSlashAux_no_slash :
    ∀ (s acc : List Char), '/' ∉ s → splitSlashAux acc s = [acc ++ s] := by
  intro s
  induction s with
  | nil => intro acc h; simp [splitSlashAux]
  | cons c rest ih =>
    intro acc h
    have hc : ¬ c = '/' := by
      intro hh
      exact h (by rw [hh]; exact List.mem_cons_self _ _)
    rw [splitSlashAux, if_neg hc,
      ih (acc ++ [c]) (fun hm => h (List.mem_cons_of_mem c hm))]
    simp

/-- Splitting at the first slash separates the slash-free head component. -/
theorem splitSlashAux_slash_append :
    ∀ (xs : List Char), '/' ∉ xs → ∀ (ys acc : List Char),
      splitSlashAux acc (xs ++ '/' :: ys)
        = (acc ++ xs) :: splitSlashAux [] ys := by
  intro xs
  induction xs with
  | nil =>
    intro _ ys acc
    rw [List.nil_append, splitSlashAux, if_pos rfl]
    simp
  | cons c rest ih =>
    intro h ys acc
    have hc : ¬ c = '/' := by
      intro hh
      exact h (by rw [hh]; exact List.mem_cons_self _ _)
    rw [List.cons_append, splitSlashAux, if_neg hc,
      ih (fun hm => h (List.mem_cons_of_mem c hm)) ys (acc ++ [c])]
    simp

/-- Folding insertions into a package map preserves sortedness of every
per-name slice, because each insertion re-sorts the touched slice. -/
theorem loadPackageMap_sorted_inv {V : Type} (cmp : V → V → Int)
    [IsTotal (VPackage V) (sortLE cmp)] [IsTrans (VPackage V) (sortLE cmp)] :
    ∀ (input : List (VPackage V)) (m : PackageMap V),
      (∀ n, List.Sorted (sortLE cmp) (m n)) →
      ∀ n, List.Sorted (sortLE cmp)
        (input.foldl (loadPackageMapStep cmp) m n) := by
  intro input
  induction input with
  | nil => intro m hm n; exact hm n
  | cons p rest ih =>
    intro m hm n
    rw [List.foldl_cons]
    apply ih
    intro n2
    rw [loadPackageMapStep]
    by_cases h : n2 = p.package
    · rw [if_pos h]
      exact List.sorted_insertionSort (sortLE cmp) _
    · rw [if_neg h]
      exact hm n2

/-- `Engross` never mutates the published path tree: whatever branch it
takes, the link table of the resulting store state is the input's. -/
theorem engross_preserves_links (a : WArchive) (suite : WSuite) (now : Nat)
    (fmtTime : Nat → String) (parseDuration : String → Option Nat)
    (st : BlobState) :
    (a.Engross suite now fmtTime parseDuration st).1.links = st.links := by
  rw [WArchive.Engross]
  cases hrel : suite.newRelease now fmtTime parseDuration with
  | error e => rfl
  | ok release0 =>
    simp only []
    generalize hfold : List.foldl _ (st, release0, ([] : List (String × Nat)), ([] : List String)) suite.components = folded
    have hfoldLinks : folded.1.links = st.links := by
      rw [← hfold]
      exact engrossComponents_links suite.name suite.components _
    rcases hsig : a.encodeSigned _ folded.1 with ⟨st2, res⟩
    have hsigLinks : st2.links = folded.1.links := by
      have := encodeSigned_links a
        { folded.2.1 with architectures := folded.2.2.2 } folded.1
      rw [hsig] at this
      exact this
    cases res with
    | error e =>
      simp only [hsig]
      rw [hsigLinks, hfoldLinks]
    | ok objs =>
      simp only [hsig]
      rcases hclear : a.encodeClearsigned _ st2 with ⟨st3, res2⟩
      have hclearLinks : st3.links = st2.links := by
        have := encodeClearsigned_links a
          { folded.2.1 with architectures := folded.2.2.2 } st2
        rw [hclear] at this
        exact this
      cases res2 with
      | error e =>
        simp only [hclear]
        rw [hclearLinks, hsigLinks, hfoldLinks]
      | ok obj2 =>
        simp only [hclear]
        rw [hclearLinks, hsigLinks, hfoldLinks]

/-! ## Claim theorems -/

/-- C1: when a verified `Suite` streams an index (`Packages(component,arch)`
or `Sources(component)`) whose bytes fail the digest/size validators built
from the Release's declared hashes, the call — after the whole stream was
consumed and decoded — returns the hash-mismatch error together with an
empty collection, not the decoded paragraphs. -/
theorem claim_C1_hash_mismatch_invalidates_collection {P Q : Type}
    (s : RSuite) (hashFn : String → List Nat → List Nat)
    (decodeP : List Nat → Except String (List P))
    (decodeS : List Nat → Except String (List Q))
    (fs : String → Option (List Nat)) (component arch : String)
    (contentP contentS : List Nat) (pkgs : List P) (srcs : List Q) :
    (s.HasComponent component = true →
      s.HasArch arch = true →
      (s.release.Indices (component ++ "/binary-" ++ arch ++ "/Packages")).length ≠ 0 →
      fs ("dists/" ++ s.release.suite ++ "/"
          ++ (component ++ "/binary-" ++ arch ++ "/Packages")) = some contentP →
      decodeP contentP = Except.ok pkgs →
      validatorsValidate hashFn
        (s.release.Indices (component ++ "/binary-" ++ arch ++ "/Packages"))
        contentP = false →
      s.Packages hashFn decodeP fs component arch
        = ([], some "Index hashes do not match!"))
    ∧ (s.HasComponent component = true →
      (s.release.Indices (component ++ "/source/Sources.gz")).length ≠ 0 →
      fs ("dists/" ++ s.release.suite ++ "/"
          ++ (component ++ "/source/Sources.gz")) = some contentS →
      decodeS contentS = Except.ok srcs →
      validatorsValidate hashFn
        (s.release.Indices (component ++ "/source/Sources.gz"))
        contentS = false →
      s.Sources hashFn decodeS fs component
        = ([], some "Index hashes do not match!")) := by
  constructor
  · intro hcomp harch hidx hfs hdec hval
    simp only [RSuite.Packages, RSuite.getHashedFileReader, hcomp, harch,
      hidx, hfs, hdec, hval]
    simp [hidx]
    rw [hdec]
    simp [hval]
  · intro hcomp hidx hfs hdec hval
    simp only [RSuite.Sources, RSuite.getHashedFileReader, hcomp,
      hidx, hfs, hdec, hval]
    simp [hidx]
    rw [hdec]
    simp [hval]

/-- C1 witness: a one-component release declaring a wrong sha256 for both
indices; both reads decode fine but return the mismatch error with an empty
collection. -/
theorem claim_C1_hash_mismatch_invalidates_collection_witness :
    (RSuite.mk
        { suite := "test", components := ["main"], architectures := ["amd64"],
          sha256 :=
            [{ algorithm := "sha256", digest := [9, 9], size := 2,
               filename := "main/binary-amd64/Packages" },
             { algorithm := "sha256", digest := [7], size := 1,
               filename := "main/source/Sources.gz" }] }).Packages
      (fun _ content => content) (fun _ => Except.ok [1])
      (fun _ => some [0, 0]) "main" "amd64"
      = ([], some "Index hashes do not match!")
    ∧ (RSuite.mk
        { suite := "test", components := ["main"], architectures := ["amd64"],
          sha256 :=
            [{ algorithm := "sha256", digest := [9, 9], size := 2,
               filename := "main/binary-amd64/Packages" },
             { algorithm := "sha256", digest := [7], size := 1,
               filename := "main/source/Sources.gz" }] }).Sources
      (fun _ content => content) (fun _ => Except.ok [2])
      (fun _ => some [0, 0]) "main"
      = ([], some "Index hashes do not match!") := by
  constructor
  · exact (claim_C1_hash_mismatch_invalidates_collection
      (RSuite.mk
        { suite := "test", components := ["main"], architectures := ["amd64"],
          sha256 :=
            [{ algorithm := "sha256", digest := [9, 9], size := 2,
               filename := "main/binary-amd64/Packages" },
             { algorithm := "sha256", digest := [7], size := 1,
               filename := "main/source/Sources.gz" }] })
      (fun _ content => content) (fun _ => Except.ok [1]) (fun _ => Except.ok [2])
      (fun _ => some [0, 0]) "main" "amd64" [0, 0] [0, 0] [1] [2]).1
      (by decide) (by decide) (by decide) rfl rfl (by decide)
  · exact (claim_C1_hash_mismatch_invalidates_collection
      (RSuite.mk
        { suite := "test", components := ["main"], architectures := ["amd64"],
          sha256 :=
            [{ algorithm := "sha256", digest := [9, 9], size := 2,
               filename := "main/binary-amd64/Packages" },
             { algorithm := "sha256", digest := [7], size := 1,
               filename := "main/source/Sources.gz" }] })
      (fun _ content => content) (fun _ => Except.ok [1]) (fun _ => Except.ok [2])
      (fun _ => some [0, 0]) "main" "amd64" [0, 0] [0, 0] [1] [2]).2
      (by decide) (by decide) rfl rfl (by decide)

/-- C2: the Release's `Indices()` map has an entry for a path exactly when a
SHA256 or SHA512 FileHash is declared for it, md5/sha1 entries never
contribute, and a `Packages`/`Sources` read whose index path has no entry
fails with the undeclared-index error for every possible filesystem — i.e.
before the file is opened. -/
theorem claim_C2_indices_strong_hashes_undeclared {P Q : Type}
    (r : Release) (p : String) (md5list sha1list : List FileHash)
    (s : RSuite) (hashFn : String → List Nat → List Nat)
    (decodeP : List Nat → Except String (List P))
    (decodeS : List Nat → Except String (List Q))
    (fs : String → Option (List Nat)) (component arch : String) :
    (Release.Indices r p ≠ [] ↔
      ∃ h, (h ∈ r.sha256 ∨ h ∈ r.sha512) ∧ h.filename = p)
    ∧ Release.Indices { r with md5sum := md5list, sha1 := sha1list } p
        = Release.Indices r p
    ∧ (s.HasComponent component = true →
       s.HasArch arch = true →
       s.release.Indices (component ++ "/binary-" ++ arch ++ "/Packages") = [] →
       s.Packages hashFn decodeP fs component arch
         = ([], some "Undeclared file in InRelease"))
    ∧ (s.HasComponent component = true →
       s.release.Indices (component ++ "/source/Sources.gz") = [] →
       s.Sources hashFn decodeS fs component
         = ([], some "Undeclared file in InRelease")) := by
  refine ⟨?_, rfl, ?_, ?_⟩
  · rw [Release.Indices]
    constructor
    · intro hne
      obtain ⟨h, hmem⟩ := List.exists_mem_of_ne_nil _ hne
      have hf := List.mem_filter.mp hmem
      exact ⟨h, List.mem_append.mp hf.1, by simpa using hf.2⟩
    · intro ⟨h, hmem, hp⟩ hnil
      have hin : h ∈ (r.sha256 ++ r.sha512).filter (fun h => decide (h.filename = p)) :=
        List.mem_filter.mpr ⟨List.mem_append.mpr hmem, by simpa using hp⟩
      rw [hnil] at hin
      exact absurd hin (List.not_mem_nil h)
  · intro hcomp harch hidx
    simp only [RSuite.Packages, RSuite.getHashedFileReader, hcomp, harch, hidx]
    simp
  · intro hcomp hidx
    simp only [RSuite.Sources, RSuite.getHashedFileReader, hcomp, hidx]
    simp

/-- C2 witness: a release declaring only a sha512 hash for the Packages path
has that path in `Indices()`; deleting that entry (leaving only md5) makes
the read fail with the undeclared error under a filesystem that would serve
the file. -/
theorem claim_C2_indices_strong_hashes_undeclared_witness :
    (Release.Indices
        { suite := "test", components := ["main"], architectures := ["amd64"],
          sha512 :=
            [{ algorithm := "sha512", digest := [1], size := 1,
               filename := "main/binary-amd64/Packages" }] }
        "main/binary-amd64/Packages" ≠ []
      ↔ ∃ h,
          (h ∈ ([] : List FileHash) ∨
            h ∈ [{ algorithm := "sha512", digest := [1], size := 1,
                   filename := "main/binary-amd64/Packages" : FileHash }]) ∧
          h.filename = "main/binary-amd64/Packages")
    ∧ (RSuite.mk
        { suite := "test", components := ["main"], architectures := ["amd64"],
          md5sum :=
            [{ algorithm := "md5", digest := [1], size := 1,
               filename := "main/binary-amd64/Packages" }] }).Packages
        (fun _ content => content) (fun _ => Except.ok [(1 : Nat)])
        (fun _ => some [0]) "main" "amd64"
        = ([], some "Undeclared file in InRelease") := by
  constructor
  · exact (claim_C2_indices_strong_hashes_undeclared
      (P := Nat) (Q := Nat)
      { suite := "test", components := ["main"], architectures := ["amd64"],
        sha512 :=
          [{ algorithm := "sha512", digest := [1], size := 1,
             filename := "main/binary-amd64/Packages" }] }
      "main/binary-amd64/Packages" [] []
      (RSuite.mk {}) (fun _ content => content)
      (fun _ => Except.ok [1]) (fun _ => Except.ok [1])
      (fun _ => some [0]) "main" "amd64").1
  · exact (claim_C2_indices_strong_hashes_undeclared
      (P := Nat) (Q := Nat) {} "x" [] []
      (RSuite.mk
        { suite := "test", components := ["main"], architectures := ["amd64"],
          md5sum :=
            [{ algorithm := "md5", digest := [1], size := 1,
               filename := "main/binary-amd64/Packages" }] })
      (fun _ content => content) (fun _ => Except.ok [1]) (fun _ => Except.ok [1])
      (fun _ => some [0]) "main" "amd64").2.2.1
      (by decide) (by decide) (by decide)

/-- C3: with no signing key loaded, `Engross` fails with the
no-signing-key error (provided the configured `ValidUntil` duration parses,
as the `"240h"` set by `Archive.Suite` does); and `Engross` never performs
any `Link` — in every outcome the published path table is exactly the input
store's. -/
theorem claim_C3_engross_no_key_and_no_link (a : WArchive) (suite : WSuite)
    (now : Nat) (fmtTime : Nat → String) (parseDuration : String → Option Nat)
    (st : BlobState) :
    (a.signingKey = none →
      (suite.featureDuration = "" ∨ (parseDuration suite.featureDuration).isSome = true) →
      (a.Engross suite now fmtTime parseDuration st).2
        = Except.error "No signing key loaded")
    ∧ (a.Engross suite now fmtTime parseDuration st).1.links = st.links := by
  constructor
  · intro hkey hdur
    obtain ⟨release0, hrel⟩ :
        ∃ release0, suite.newRelease now fmtTime parseDuration
          = Except.ok release0 := by
      rw [WSuite.newRelease]
      by_cases hd : suite.featureDuration = ""
      · exact ⟨_, by rw [if_pos hd]⟩
      · rcases hdur with hd2 | hd2
        · exact absurd hd2 hd
        · obtain ⟨d, hdd⟩ := Option.isSome_iff_exists.mp hd2
          exact ⟨_, by rw [if_neg hd, hdd]⟩
    have henc : ∀ (data : Release) (st2 : BlobState),
        a.encodeSigned data st2 = (st2, Except.error "No signing key loaded") := by
      intro data st2
      rw [WArchive.encodeSigned]
      simp [hkey]
    rw [WArchive.Engross, hrel]
    simp only [henc]
  · exact engross_preserves_links a suite now fmtTime parseDuration st

/-- C3 witness: a keyless archive with one empty suite over an empty store —
`Engross` errors with the no-signing-key message and the (empty) link table
is unchanged. -/
theorem claim_C3_engross_no_key_and_no_link_witness :
    ((WArchive.mk none).Engross
        { name := "test", featureHashes := ["sha256", "sha1", "sha512"],
          featureDuration := "240h" }
        0 (fun _ => "now") (fun _ => some 240)
        { nextId := 0, committed := [], links := [("dists/test/Release", 5)] }).2
      = Except.error "No signing key loaded"
    ∧ ((WArchive.mk none).Engross
        { name := "test", featureHashes := ["sha256", "sha1", "sha512"],
          featureDuration := "240h" }
        0 (fun _ => "now") (fun _ => some 240)
        { nextId := 0, committed := [], links := [("dists/test/Release", 5)] }).1.links
      = [("dists/test/Release", 5)] := by
  refine ⟨?_, ?_⟩
  · exact (claim_C3_engross_no_key_and_no_link (WArchive.mk none)
      { name := "test", featureHashes := ["sha256", "sha1", "sha512"],
        featureDuration := "240h" }
      0 (fun _ => "now") (fun _ => some 240)
      { nextId := 0, committed := [], links := [("dists/test/Release", 5)] }).1
      rfl (Or.inr rfl)
  · exact (claim_C3_engross_no_key_and_no_link (WArchive.mk none)
      { name := "test", featureHashes := ["sha256", "sha1", "sha512"],
        featureDuration := "240h" }
      0 (fun _ => "now") (fun _ => some 240)
      { nextId := 0, committed := [], links := [("dists/test/Release", 5)] }).2

/-- C4: for a `Downloader` with `MaxTransientRetries = N > 0`, a source that
fails every attempt transiently (HTTP 5xx or connection failure) gets exactly
`N + 1` open attempts — in particular at most `N + 1` — before the error is
surfaced; a source answering 404 gets exactly one attempt, i.e. zero
retries. -/
theorem claim_C4_retry_attempt_bounds (N : Nat) (responses : Nat → Option Nat)
    (hN : 0 < N) :
    ((∀ i, responses i = none ∨ ∃ c, responses i = some c ∧ 500 ≤ c ∧ c < 600) →
      retryLoop N responses 0 = (N + 1, RetryResult.failed true) ∧
      (retryLoop N responses 0).1 ≤ N + 1)
    ∧ (responses 0 = some 404 →
      retryLoop N responses 0 = (1, RetryResult.failed false)) := by
  constructor
  · intro htrans
    have hall : ∀ i, classifyOpen (responses i) = OpenOutcome.transient := by
      intro i
      rcases htrans i with hnone | ⟨c, hc, h5, h6⟩
      · rw [hnone]; rfl
      · rw [hc]
        have h200 : ¬ c = 200 := by omega
        simp [classifyOpen, h200, h5, h6]
    have := retryLoop_all_transient responses hall N N 0 (by omega)
    exact ⟨this, by rw [this]⟩
  · intro h404
    rw [retryLoop, h404]
    have h200 : ¬ (404 : Nat) = 200 := by omega
    have h5 : ¬ (500 ≤ (404 : Nat) ∧ (404 : Nat) < 600) := by omega
    simp [classifyOpen, h200, h5]

/-- C4 witness: `N = 3` with a permanently-503 server uses 4 attempts; a 404
server is never retried. -/
theorem claim_C4_retry_attempt_bounds_witness :
    retryLoop 3 (fun _ => some 503) 0 = (4, RetryResult.failed true) ∧
    retryLoop 3 (fun _ => some 404) 0 = (1, RetryResult.failed false) := by
  constructor
  · exact ((claim_C4_retry_attempt_bounds 3 (fun _ => some 503) (by omega)).1
      (by intro i; exact Or.inr ⟨503, rfl, by omega, by omega⟩)).1
  · exact (claim_C4_retry_attempt_bounds 3 (fun _ => some 404) (by omega)).2 rfl

/-- C5: the code at the claimed behaviour's input.  With
`MaxTransientRetries = 0` the loop guard `retry < 0` is false on the first
transient failure (HTTP 503), so the error is surfaced after a single
attempt — the field's own documentation says `0` means retry forever. -/
theorem claim_C5_zero_retries_surfaces_immediately :
    retryLoop 0 (fun _ => some 503) 0 = (1, RetryResult.failed true) := by
  rw [retryLoop]
  norm_num [classifyOpen]

/-- C7 counterexample: the claim demands *strictly* descending slices after
each insertion, but loading the same name/version pair twice (equal parsed
versions, comparator 0) leaves a slice in which no pair is strictly
ordered. -/
theorem claim_C7_strictness_counterexample :
    ¬ List.Pairwise (fun a b : VPackage Int => 0 < a.version - b.version)
      (LoadPackageMap (fun a b : Int => a - b)
        [⟨"A", 1⟩, ⟨"A", 1⟩] "A") := by
  decide

/-- C7 (amended): for entries drained in arbitrary order, after each
insertion every per-name slice is sorted descending by parsed version —
non-strictly, since equal versions may repeat — for any comparator that is
a total preorder (as `version.Compare` is). -/
theorem claim_C7_descending_after_each_insertion {V : Type}
    (cmp : V → V → Int)
    (htotal : ∀ a b, 0 < cmp a b → cmp b a ≤ 0)
    (htrans : ∀ a b c, cmp a b ≤ 0 → cmp b c ≤ 0 → cmp a c ≤ 0)
    (input : List (VPackage V)) (name : String) :
    List.Sorted (sortLE cmp) (LoadPackageMap cmp input name) := by
  haveI : IsTotal (VPackage V) (sortLE cmp) := by
    constructor
    intro a b
    by_contra hboth
    push_neg at hboth
    obtain ⟨h1, h2⟩ := hboth
    rw [sortLE, not_not] at h1 h2
    have := htotal _ _ h1
    omega
  haveI : IsTrans (VPackage V) (sortLE cmp) := by
    constructor
    intro a b c h1 h2
    rw [sortLE] at h1 h2 ⊢
    have h1' : cmp b.version a.version ≤ 0 := by omega
    have h2' : cmp c.version b.version ≤ 0 := by omega
    have := htrans c.version b.version a.version h2' h1'
    omega
  rw [LoadPackageMap]
  exact loadPackageMap_sorted_inv cmp input (fun _ => [])
    (fun _ => List.sorted_nil) name

/-- C7 witness: two versions inserted oldest-first come out newest-first
under the integer comparator. -/
theorem claim_C7_descending_after_each_insertion_witness :
    List.Sorted (sortLE (fun a b : Int => a - b))
      (LoadPackageMap (fun a b : Int => a - b)
        [⟨"A", 1⟩, ⟨"A", 2⟩] "A") :=
  claim_C7_descending_after_each_insertion (fun a b : Int => a - b)
    (by intro a b h; dsimp only at h ⊢; omega)
    (by intro a b c h1 h2; dsimp only at h1 h2 ⊢; omega)
    [⟨"A", 1⟩, ⟨"A", 2⟩] "A"

/-- C8: the code at the failing input.  `Pool.Copy` on a path whose
`os.Open` fails executes `return nil, []control.FileHash{}, nil`: the caller
receives no object, no hashes, and a `nil` error — not the surfaced error
the claim requires. -/
theorem claim_C8_pool_copy_swallows_open_error :
    PoolCopy (fun _ => none) ["sha256"] (fun _ content => content)
      { nextId := 0, committed := [], links := [] } "/nonexistent.deb"
      = ({ nextId := 0, committed := [], links := [] }, (none, [], none)) := rfl

/-- C6: `SourceMap.Matches` errors on an architecture-qualified possibility,
on an unknown source name (no candidates) and when no candidate satisfies
the constraint; otherwise it returns `i` exactly when the `i`-th candidate
in the stored order is the first whose version satisfies the constraint. -/
theorem claim_C6_sourceMap_matches_first_satisfying {V C : Type}
    (sat : Option C → V → Bool) (m : PackageMap V) (possi : Possibility C)
    (i : Nat) :
    (possi.arch ≠ none →
      SourceMapMatches sat m possi
        = Except.error "Arch is specified, but we are source! bad possi.")
    ∧ (possi.arch = none → m possi.name = [] →
      SourceMapMatches sat m possi
        = Except.error "I have no idea what that source is!")
    ∧ (possi.arch = none →
      (∀ c ∈ m possi.name, sat possi.verRel c.version = false) →
      m possi.name ≠ [] →
      SourceMapMatches sat m possi
        = Except.error "No satisfactory dependency found")
    ∧ (possi.arch = none →
      (SourceMapMatches sat m possi = Except.ok i ↔
        ((∃ c, (m possi.name)[i]? = some c ∧ sat possi.verRel c.version = true) ∧
          ∀ j, j < i → ∀ c, (m possi.name)[j]? = some c →
            sat possi.verRel c.version = false))) := by
  refine ⟨?_, ?_, ?_, ?_⟩
  · intro harch
    simp [SourceMapMatches, harch]
  · intro harch hnil
    simp [SourceMapMatches, harch, hnil]
  · intro harch hnone hne
    have hfind : (m possi.name).findIdx?
        (fun candidate => sat possi.verRel candidate.version) = none :=
      List.findIdx?_eq_none_iff.mpr hnone
    have hlen : ¬ (m possi.name).length = 0 := by
      intro h0
      exact hne (List.eq_nil_of_length_eq_zero h0)
    simp [SourceMapMatches, harch, hlen, hfind]
  · intro harch
    by_cases hlen : (m possi.name).length = 0
    · have hnil : m possi.name = [] := List.eq_nil_of_length_eq_zero hlen
      simp only [SourceMapMatches, harch]
      simp only [ne_eq, not_true_eq_false, if_false, hlen, if_true]
      constructor
      · intro h
        exact absurd h (by simp)
      · intro ⟨⟨c, hc, _⟩, _⟩
        rw [hnil] at hc
        simp at hc
    · have hchar := findIdx?_some_char
        (fun candidate => sat possi.verRel candidate.version) (m possi.name) i
      refine Iff.trans ?_ hchar
      cases hf : (m possi.name).findIdx?
          (fun candidate => sat possi.verRel candidate.version) with
      | none => simp [SourceMapMatches, harch, hlen, hf]
      | some i0 => simp [SourceMapMatches, harch, hlen, hf, eq_comm]

/-- C6 witness: the spec scenario — candidates `A@2, A@1` (descending),
constraint "at least 2" (as the satisfaction predicate): `Matches` returns
index 0, the newest satisfying version; and an arch-qualified possibility
errors. -/
theorem claim_C6_sourceMap_matches_first_satisfying_witness :
    SourceMapMatches (V := Int) (C := Unit)
      (fun _ v => decide (2 ≤ v))
      (fun n => if n = "A" then [⟨"A", 2⟩, ⟨"A", 1⟩] else [])
      { name := "A", arch := none, verRel := none }
      = Except.ok 0
    ∧ SourceMapMatches (V := Int) (C := Unit)
      (fun _ v => decide (2 ≤ v))
      (fun n => if n = "A" then [⟨"A", 2⟩, ⟨"A", 1⟩] else [])
      { name := "A", arch := some "amd64", verRel := none }
      = Except.error "Arch is specified, but we are source! bad possi." := by
  constructor
  · exact ((claim_C6_sourceMap_matches_first_satisfying
      (fun _ v => decide (2 ≤ v))
      (fun n => if n = "A" then [⟨"A", 2⟩, ⟨"A", 1⟩] else [])
      { name := "A", arch := none, verRel := none } 0).2.2.2 rfl).mpr
      ⟨⟨⟨"A", 2⟩, by decide, by decide⟩, by omega⟩
  · exact (claim_C6_sourceMap_matches_first_satisfying
      (fun _ v => decide (2 ≤ v))
      (fun n => if n = "A" then [⟨"A", 2⟩, ⟨"A", 1⟩] else [])
      { name := "A", arch := some "amd64", verRel := none } 0).1 (by simp)

/-- C9 counterexample: the claim says every non-empty source name yields
literally `<first-byte>/<name>`, but `path.Join` cleans the joined path: for
the one-byte name `.` the code produces `.`, not `./.`. -/
theorem claim_C9_poolPrefix_literal_counterexample :
    poolPrefixFn ['.'] = some ['.']
    ∧ poolPrefixFn ['.'] ≠ some ['.', '/', '.'] := by
  constructor
  · rfl
  · decide

/-- C9 (amended): `poolPrefix` slices `source[0:1]`, which is in bounds for
every non-empty source name — non-emptiness is a necessary precondition, and
on the empty name the slice aborts (the `none` case).  For a non-empty name
the result is `path.Clean(<first-byte>/<name>)`, which equals the literal
`<first-byte>/<name>` whenever the name contains no slash and does not start
with a dot. -/
theorem claim_C9_poolPrefix_bounds_and_clean (source : List Char) :
    (source ≠ [] →
      poolPrefixFn source
        = some (pathClean (source.take 1 ++ '/' :: source)))
    ∧ (source ≠ [] → '/' ∉ source → source.head? ≠ some '.' →
      poolPrefixFn source = some (source.take 1 ++ '/' :: source))
    ∧ poolPrefixFn [] = none := by
  have hmain : source ≠ [] →
      poolPrefixFn source
        = some (pathClean (source.take 1 ++ '/' :: source)) := by
    intro hne
    cases source with
    | nil => exact absurd rfl hne
    | cons h t =>
      rw [poolPrefixFn, if_pos (by simp)]
      rw [pathJoinList]
      rw [if_neg (by simp)]
      rfl
  refine ⟨hmain, ?_, rfl⟩
  intro hne hslash hdot
  rw [hmain hne]
  cases source with
  | nil => exact absurd rfl hne
  | cons h t =>
    have hh : ¬ h = '/' := by
      intro hq
      exact hslash (by rw [hq]; exact List.mem_cons_self _ _)
    have hd : ¬ h = '.' := by
      intro hq
      exact hdot (by rw [List.head?_cons, hq])
    have htake : (h :: t).take 1 = [h] := by simp
    rw [htake]
    have hsplit : splitSlash ([h] ++ '/' :: h :: t) = [[h], h :: t] := by
      rw [splitSlash, splitSlashAux_slash_append [h]
        (by simp; intro hq; exact hh hq.symm) (h :: t) []]
      rw [splitSlashAux_no_slash (h :: t) [] hslash]
      simp
    have hstack : cleanStack false [] [[h], h :: t] = [h :: t, [h]] := by
      rw [cleanStack]
      rw [if_neg (by simp [hd])]
      rw [if_neg (by simp)]
      rw [cleanStack]
      rw [if_neg ?c1]
      case c1 =>
        simp only [not_or]
        refine ⟨by simp, ?_⟩
        intro hq
        rw [List.cons_eq_cons] at hq
        exact hd hq.1
      rw [if_neg ?c2]
      case c2 =>
        intro hq
        rw [List.cons_eq_cons] at hq
        exact hd hq.1
      rfl
    have hrootedP : ¬ (([h] ++ '/' :: h :: t).head? = some '/') := by
      simp [hh]
    have hrootedB : decide (([h] ++ '/' :: h :: t).head? = some '/') = false :=
      decide_eq_false hrootedP
    rw [pathClean, if_neg (by simp)]
    simp only [hrootedB]
    rw [if_neg hrootedP]
    rw [hsplit, hstack]
    rw [show ([h :: t, [h]] : List (List Char)).reverse = [[h], h :: t] from rfl]
    rw [show joinSlash [[h], h :: t] = [h] ++ '/' :: h :: t from rfl]
    rw [if_neg (by simp)]

/-- C9 witness: an ordinary source name `abc` produces `a/abc`, and the
empty name aborts. -/
theorem claim_C9_poolPrefix_bounds_and_clean_witness :
    poolPrefixFn ['a', 'b', 'c'] = some ['a', '/', 'a', 'b', 'c']
    ∧ poolPrefixFn [] = none := by
  constructor
  · exact (claim_C9_poolPrefix_bounds_and_clean ['a', 'b', 'c']).2.1
      (by decide) (by decide) (by decide)
  · exact (claim_C9_poolPrefix_bounds_and_clean []).2.2

/-- C10: `CachedRelease` memoizes the full `(Release, ReleaseDownloader,
error)` triple: a cache hit returns exactly the stored triple with no fetch,
and after a first (possibly failed) call completes and stores its result,
any later call — even against a changed downloader — returns that first
result and performs zero fetches. -/
theorem claim_C10_cachedRelease_memoizes
    (fetch fetch2 : String → CachedTriple)
    (cache : List (String × CachedTriple)) (suite : String) (t : CachedTriple) :
    (cache.lookup suite = some t →
      cachedReleaseCall fetch cache suite = (t, cache, 0))
    ∧ (cache.lookup suite = none →
      (cachedReleaseCall fetch cache suite).1 = fetch suite ∧
      cachedReleaseCall fetch2 (cachedReleaseCall fetch cache suite).2.1 suite
        = ((cachedReleaseCall fetch cache suite).1,
           (cachedReleaseCall fetch cache suite).2.1, 0)) := by
  constructor
  · intro hhit
    rw [cachedReleaseCall, hhit]
  · intro hmiss
    have hfirst : cachedReleaseCall fetch cache suite
        = (fetch suite, cache ++ [(suite, fetch suite)], 1) := by
      rw [cachedReleaseCall, hmiss]
    refine ⟨by rw [hfirst], ?_⟩
    rw [hfirst]
    have hlook : (cache ++ [(suite, fetch suite)]).lookup suite
        = some (fetch suite) := by
      rw [List.lookup_append, hmiss]
      simp [List.lookup_cons]
    rw [cachedReleaseCall, hlook]

/-- C10 witness: a concrete failed first fetch is stored and returned
verbatim, with no second fetch, even when the second fetch would succeed. -/
theorem claim_C10_cachedRelease_memoizes_witness :
    cachedReleaseCall
      (fun _ => { release := some 7, rd := some 8, err := none })
      (cachedReleaseCall (fun _ => { release := none, rd := none, err := some "boom" })
        [] "sid").2.1 "sid"
      = ({ release := none, rd := none, err := some "boom" },
         [("sid", { release := none, rd := none, err := some "boom" })], 0) := by
  have h := (claim_C10_cachedRelease_memoizes
    (fun _ => { release := none, rd := none, err := some "boom" })
    (fun _ => { release := some 7, rd := some 8, err := none })
    [] "sid" { release := none, rd := none, err := some "boom" }).2 rfl
  exact h.2.trans (by rw [h.1]; rfl)

end GoArchive
